import Mathlib

set_option maxRecDepth 8000

namespace Nts

/-! Shallow embedding of `src/App.tsx` (the "Prehistoric Docu-Gen" application).
JavaScript values are modelled as follows: `number` fields holding integers are
`Nat`/`Int`; optional (`?:`) fields are `Option`/`Bool` with `undefined`
collapsed to `none`/`false`, which is exactly how the source consumes them
(truthiness tests only); `string` is `String`. -/

/-- Constant `MAX_REFERENCE_IMAGES` from `App.tsx` (line 50). -/
def MAX_REFERENCE_IMAGES : Nat := 3

/-- Constant `MAX_CONCURRENT_GENERATIONS` from `App.tsx` (line 51). -/
def MAX_CONCURRENT_GENERATIONS : Nat := 4

/-- Constant `SCENE_DURATION_SECONDS` from `App.tsx` (line 49). -/
def SCENE_DURATION_SECONDS : Nat := 8

/-- The `ImageFile` interface (App.tsx lines 8-13). -/
structure ImageFile where
  name : String
  dataUrl : String
  base64 : String
  mimeType : String
deriving DecidableEq, Repr

/-- The `ScenePrompt` interface (App.tsx lines 15-23).  The optional fields
`generatedImageUrl?`, `isLoading?`, `generationFailed?` are modelled with
`Option String` and `Bool` (`undefined` collapses to `none`/`false`). -/
structure ScenePrompt where
  id : Nat
  phase : String
  imagePrompt : String
  videoPrompt : String
  generatedImageUrl : Option String := none
  isLoading : Bool := false
  generationFailed : Bool := false
deriving DecidableEq, Repr

/-- JavaScript truthiness of an optional string: `undefined` and `""` are falsy,
every other string is truthy. -/
def jsTruthy : Option String → Bool
  | none => false
  | some s => s != ""

/-- Toast severity (the `type` field of `ToastMessage`, App.tsx line 32). -/
inductive ToastType
  | success
  | error
  | warning
  | info
deriving DecidableEq, Repr

/-- The payload handed to `addToast` (a `ToastMessage` minus the generated `id`,
App.tsx lines 30-36; `persistent?` is optional and falsy when absent). -/
structure ToastPayload where
  type : ToastType
  title : String
  message : String
  persistent : Bool := false
deriving DecidableEq, Repr

/-- From `addToast` (App.tsx lines 455-464): a delayed removal (5000 ms
`setTimeout`) is scheduled exactly when the toast is not persistent. -/
def addToastSchedulesRemoval (t : ToastPayload) : Bool := !t.persistent

/-- The `useState` cells of the `App` component (App.tsx lines 419-428) that the
claims touch.  The toast list itself is not threaded here; handlers below
return the list of toast payloads they post, in order. -/
structure AppState where
  scenario : String := ""
  duration : Int := 1
  referenceImages : List ImageFile := []
  scriptFileName : Option String := none
  scriptContent : Option String := none
  prompts : List ScenePrompt := []
  isBuilding : Bool := false
  isBatchGenerating : Bool := false
deriving DecidableEq, Repr

/-! ### Scenario input resolver (`canBuild`, App.tsx line 205) -/

/-- `canBuild` from `ControlPanel` (App.tsx line 205):
`referenceImages.length === MAX_REFERENCE_IMAGES && (!!scriptFileName || scenario.trim() !== "") && duration > 0`. -/
def canBuild (referenceImages : List ImageFile) (scriptFileName : Option String)
    (scenario : String) (duration : Int) : Bool :=
  referenceImages.length == MAX_REFERENCE_IMAGES
    && (jsTruthy scriptFileName || scenario.trim != "")
    && decide (0 < duration)

/-- Spec-side reading of "a non-empty script is loaded" (§4.2): a script file
name is present and non-empty — i.e. the state holds a truthy script handle. -/
def scriptLoaded (o : Option String) : Prop := ∃ s, o = some s ∧ s ≠ ""

/-- C6: `canBuildPlan` is true iff exactly 3 reference images are present AND
(a non-empty script is loaded OR non-empty freeform scenario text is present)
AND duration > 0; equivalently it is false whenever any of the three conjuncts
fails. -/
theorem claim_C6_canBuildPlan (refs : List ImageFile) (sfn : Option String)
    (scen : String) (dur : Int) :
    canBuild refs sfn scen dur = true ↔
      (refs.length = MAX_REFERENCE_IMAGES ∧ (scriptLoaded sfn ∨ scen.trim ≠ "") ∧ 0 < dur) := by
  cases sfn with
  | none => simp [canBuild, jsTruthy, scriptLoaded, and_assoc]
  | some s =>
    by_cases hs : s = "" <;>
      simp [canBuild, jsTruthy, scriptLoaded, hs, and_assoc]

/-! ### Reference asset store (`handleImageUpload`, App.tsx lines 472-480) -/

/-- JavaScript `arr.slice(0, e)`: a negative end index counts back from the end
of the array (clamped at 0); a nonnegative end takes that many elements. -/
def jsSlice0 {α : Type} (l : List α) (e : Int) : List α :=
  if e < 0 then l.take ((l.length : Int) + e).toNat else l.take e.toNat

/-- `handleImageUpload` (App.tsx lines 472-480): the freshly selected files are
first cut to the remaining capacity (`newFiles.slice(0, MAX_REFERENCE_IMAGES - referenceImages.length)`),
converted, appended to the current list, and the result cut to
`MAX_REFERENCE_IMAGES` (`[...prev, ...processed].slice(0, MAX_REFERENCE_IMAGES)`).
File-to-data-URL conversion preserves order (`Promise.all` over the mapped
array), so it is the identity on the list structure here. -/
def handleImageUpload (prev newFiles : List ImageFile) : List ImageFile :=
  jsSlice0 (prev ++ jsSlice0 newFiles ((MAX_REFERENCE_IMAGES : Int) - prev.length))
    (MAX_REFERENCE_IMAGES : Int)

theorem take_append_take_eq {α : Type} (l1 l2 : List α) (n : Nat) :
    (l1 ++ l2.take (n - l1.length)).take n = (l1 ++ l2).take n := by
  rw [List.take_append_eq_append_take, List.take_append_eq_append_take,
    List.take_take, Nat.min_self]

/-- C7: `addImages` appends the uploaded files in order and truncates to at most
3 total; the store therefore never exceeds 3 images. -/
theorem claim_C7_addImages (prev newFiles : List ImageFile)
    (h : prev.length ≤ MAX_REFERENCE_IMAGES) :
    handleImageUpload prev newFiles = (prev ++ newFiles).take MAX_REFERENCE_IMAGES ∧
      (handleImageUpload prev newFiles).length ≤ MAX_REFERENCE_IMAGES := by
  have hMAX : MAX_REFERENCE_IMAGES = 3 := rfl
  have h3 : prev.length ≤ 3 := by omega
  have hnonneg : ¬ ((MAX_REFERENCE_IMAGES : Int) - prev.length < 0) := by
    simp only [hMAX]; omega
  have htoNat : ((MAX_REFERENCE_IMAGES : Int) - prev.length).toNat
      = MAX_REFERENCE_IMAGES - prev.length := by
    simp only [hMAX]; omega
  have heq : handleImageUpload prev newFiles = (prev ++ newFiles).take MAX_REFERENCE_IMAGES := by
    unfold handleImageUpload jsSlice0
    rw [if_neg hnonneg, if_neg (by simp [hMAX] : ¬ ((MAX_REFERENCE_IMAGES : Int) < 0)), htoNat]
    have : ((MAX_REFERENCE_IMAGES : Int)).toNat = MAX_REFERENCE_IMAGES := rfl
    rw [this, take_append_take_eq]
  refine ⟨heq, ?_⟩
  rw [heq]
  simp

/-- Helper: a throwaway concrete image file used by closed witnesses. -/
def imgN (n : Nat) : ImageFile :=
  { name := toString n, dataUrl := toString n, base64 := toString n, mimeType := "image/png" }

/-- Witness for C7: uploading 5 files into an empty store retains exactly the
first 3, in upload order. -/
theorem claim_C7_addImages_witness :
    ([] : List ImageFile).length ≤ MAX_REFERENCE_IMAGES ∧
      handleImageUpload [] [imgN 1, imgN 2, imgN 3, imgN 4, imgN 5]
        = [imgN 1, imgN 2, imgN 3] :=
  ⟨by decide,
    by
      have h := claim_C7_addImages [] [imgN 1, imgN 2, imgN 3, imgN 4, imgN 5] (by decide)
      rw [h.1]; decide⟩

/-! ### Spreadsheet export (`downloadXLSX`, App.tsx lines 621-632) -/

/-- A spreadsheet cell: `downloadXLSX` writes the numeric scene id and four
strings per row. -/
inductive Cell
  | num (n : Nat)
  | str (s : String)
deriving DecidableEq, Repr

/-- The row object built for each scene in `downloadXLSX` (App.tsx lines
622-628), with the keys in the order they are written in the object literal.
`p.generatedImageUrl || ""` yields the stored string when present and `""`
otherwise, which is `Option.getD` (a stored `""` also yields `""`). -/
def sceneRow (p : ScenePrompt) : List (String × Cell) :=
  [("ID", Cell.num p.id),
   ("Phase", Cell.str p.phase),
   ("Image Prompt", Cell.str p.imagePrompt),
   ("Video Prompt", Cell.str p.videoPrompt),
   ("Image URL", Cell.str (p.generatedImageUrl.getD ""))]

/-- One workbook as produced by the export: a single sheet plus the download
file name. -/
structure Workbook where
  fileName : String
  sheetName : String
  header : List String
  rows : List (List Cell)
deriving DecidableEq, Repr

/-- Modelled from the spec: the client-side spreadsheet writer
(`XLSX.utils.json_to_sheet` / `book_new` / `book_append_sheet` /
`XLSX.writeFile` are an external collaborator, not code of this repository).
Per the §6 contract it serializes the given row objects into one sheet whose
header row lists the column keys in order, followed by one data row per
object, under the given sheet name and download file name. -/
def writeWorkbook (rows : List (List (String × Cell))) (cols : List String)
    (sheetName fileName : String) : Workbook :=
  { fileName := fileName
    sheetName := sheetName
    header := cols
    rows := rows.map (fun r => r.map Prod.snd) }

/-- The header labels of `downloadXLSX`, i.e. the key order of the object
literal at App.tsx lines 622-628. -/
def xlsxColumns : List String :=
  ["ID", "Phase", "Image Prompt", "Video Prompt", "Image URL"]

/-- `downloadXLSX` (App.tsx lines 621-632). -/
def downloadXLSX (prompts : List ScenePrompt) : Workbook :=
  writeWorkbook (prompts.map sceneRow) xlsxColumns "Prompts" "Prehistoric_Project_Prompts.xlsx"

/-- C9: for every scene sequence (including the empty one) the export has sheet
name "Prompts", fixed file name "Prehistoric_Project_Prompts.xlsx", headers in
the exact order ID, Phase, Image Prompt, Video Prompt, Image URL (these are
exactly the keys of every row object), one row per scene, and an empty-string
Image URL cell when the scene has no generated image. -/
theorem claim_C9_xlsxExport (prompts : List ScenePrompt) :
    (downloadXLSX prompts).fileName = "Prehistoric_Project_Prompts.xlsx" ∧
    (downloadXLSX prompts).sheetName = "Prompts" ∧
    (downloadXLSX prompts).header
      = ["ID", "Phase", "Image Prompt", "Video Prompt", "Image URL"] ∧
    (∀ p : ScenePrompt, (sceneRow p).map Prod.fst = (downloadXLSX prompts).header) ∧
    (downloadXLSX prompts).rows.length = prompts.length ∧
    (downloadXLSX []).rows = [] ∧
    (∀ p : ScenePrompt, p.generatedImageUrl = none →
      (sceneRow p).map Prod.snd
        = [Cell.num p.id, Cell.str p.phase, Cell.str p.imagePrompt,
           Cell.str p.videoPrompt, Cell.str ""]) := by
  refine ⟨rfl, rfl, rfl, fun p => rfl, ?_, rfl, ?_⟩
  · simp [downloadXLSX, writeWorkbook]
  · intro p hnone
    simp [sceneRow, hnone]

/-- Witness for C9: the empty-url clause evaluated on a concrete scene. -/
theorem claim_C9_xlsxExport_witness :
    ({ id := 1, phase := "Hook", imagePrompt := "ip", videoPrompt := "vp" } :
        ScenePrompt).generatedImageUrl = none ∧
      (sceneRow { id := 1, phase := "Hook", imagePrompt := "ip", videoPrompt := "vp" }).map
          Prod.snd
        = [Cell.num 1, Cell.str "Hook", Cell.str "ip", Cell.str "vp", Cell.str ""] :=
  ⟨rfl,
    (claim_C9_xlsxExport []).2.2.2.2.2.2
      { id := 1, phase := "Hook", imagePrompt := "ip", videoPrompt := "vp" } rfl⟩

/-! ### Plan generation (`buildPrompts`, App.tsx lines 504-565) -/

/-- The app state at the moment `buildPrompts` issues its text-generation call:
`setIsBuilding(true)` and `setPrompts([])` have already run (App.tsx lines
505-506), so the previous plan is gone before the call is outstanding. -/
def buildPromptsMid (st : AppState) : AppState :=
  { st with isBuilding := true, prompts := [] }

/-- `buildPrompts` (App.tsx lines 504-565).  `responseText` is `response.text`
(`none` when the service returned no text; the source also treats `""` as
missing via `if (!jsonText) throw`).  `JSON.parse` is a JavaScript builtin and
is passed in as `parse`, returning `none` when the text fails to parse (the
thrown `SyntaxError` message is irrelevant to the state, so a fixed message
stands in for `error.message` in the error toast). -/
def buildPrompts (st : AppState) (responseText : Option String)
    (parse : String → Option (List ScenePrompt)) : AppState × List ToastPayload :=
  let mid := buildPromptsMid st
  match responseText with
  | none =>
      ({ mid with isBuilding := false },
       [{ type := ToastType.error, title := "Generation Failed",
          message := "No response from AI" }])
  | some t =>
      if t == "" then
        ({ mid with isBuilding := false },
         [{ type := ToastType.error, title := "Generation Failed",
            message := "No response from AI" }])
      else
        match parse t with
        | none =>
            ({ mid with isBuilding := false },
             [{ type := ToastType.error, title := "Generation Failed",
                message := "Unexpected token" }])
        | some scenes =>
            ({ mid with prompts := scenes, isBuilding := false },
             [{ type := ToastType.success, title := "Prompts Generated",
                message := "Successfully created " ++ toString scenes.length
                  ++ " scene prompts." }])

/-- C10: plan generation clears the scene sequence before the call is issued,
and when the call fails (no/empty response text, or unparseable JSON) the
session is left with the empty scene sequence — the prior plan is not
restored. -/
theorem claim_C10_planClearedOnFailure (st : AppState) (responseText : Option String)
    (parse : String → Option (List ScenePrompt)) :
    (buildPromptsMid st).prompts = [] ∧
    (responseText = none ∨ responseText = some "" →
      (buildPrompts st responseText parse).1.prompts = []) ∧
    (∀ t, responseText = some t → parse t = none →
      (buildPrompts st responseText parse).1.prompts = []) := by
  refine ⟨rfl, ?_, ?_⟩
  · rintro (rfl | rfl) <;> simp [buildPrompts, buildPromptsMid]
  · rintro t rfl hparse
    by_cases ht : t = "" <;> simp [buildPrompts, buildPromptsMid, ht, hparse]

/-- Witness for C10: a session holding a one-scene plan with a generated image
loses it when the next plan request returns unparseable text. -/
theorem claim_C10_planClearedOnFailure_witness :
    ((some "not json" : Option String) = none ∨ (some "not json" : Option String) = some "") ∨
      ((fun _ => none : String → Option (List ScenePrompt)) "not json" = none ∧
        (buildPrompts
            { prompts := [{ id := 1, phase := "Hook", imagePrompt := "ip",
                            videoPrompt := "vp", generatedImageUrl := some "url" }] }
            (some "not json") (fun _ => none)).1.prompts = []) :=
  Or.inr ⟨rfl,
    (claim_C10_planClearedOnFailure
        { prompts := [{ id := 1, phase := "Hook", imagePrompt := "ip",
                        videoPrompt := "vp", generatedImageUrl := some "url" }] }
        (some "not json") (fun _ => none)).2.2 "not json" rfl rfl⟩

/-! ### Script upload and duration derivation (App.tsx lines 482-501) -/

/-- JavaScript `text.split(/\s+/)` walking the character list.  The second
argument is `some acc` while a fragment is being collected (accumulated in
reverse) and `none` while skipping a run of whitespace.  Splitting at a run of
whitespace emits the fragment collected so far — including an empty fragment
for a run at the very start of the string — and a trailing run emits a final
empty fragment, exactly as the JS regexp split does. -/
def splitWsCore : List Char → Option (List Char) → List String
  | [], some acc => [String.mk acc.reverse]
  | [], none => [""]
  | c :: cs, some acc =>
      if c.isWhitespace then String.mk acc.reverse :: splitWsCore cs none
      else splitWsCore cs (some (c :: acc))
  | c :: cs, none =>
      if c.isWhitespace then splitWsCore cs none
      else splitWsCore cs (some [c])

/-- `text.split(/\s+/)` (App.tsx line 491). -/
def jsSplitWs (s : String) : List String := splitWsCore s.data (some [])

/-- JavaScript `Math.ceil(a / b)` for natural `a` and positive natural `b`. -/
def jsMathCeilDiv (a b : Nat) : Nat := (a + b - 1) / b

/-- The duration (in minutes) set by `handleScriptUpload` (App.tsx lines
490-492): `Math.ceil(text.split(/\s+/).length / 150)`. -/
def scriptDerivedDuration (text : String) : Nat :=
  jsMathCeilDiv (jsSplitWs text).length 150

/-- `handleScriptUpload` (App.tsx lines 482-495), after the reader callback has
delivered the file text. -/
def handleScriptUpload (st : AppState) (fileName text : String) : AppState :=
  { st with scriptFileName := some fileName
            scriptContent := some text
            duration := (scriptDerivedDuration text : Int) }

/-- `handleRemoveScript` (App.tsx lines 497-501). -/
def handleRemoveScript (st : AppState) : AppState :=
  { st with scriptFileName := none, scriptContent := none, duration := 1 }

/-- Number of maximal runs of characters satisfying `p` in a character list;
the flag records whether the previous character satisfied `p`. -/
def runCount (p : Char → Bool) : Bool → List Char → Nat
  | _, [] => 0
  | inside, c :: cs =>
      if p c then (if inside then runCount p true cs else runCount p true cs + 1)
      else runCount p false cs

/-- Whitespace-delimited word count as the spec (§4.2) intends it: the number
of maximal runs of non-whitespace characters. -/
def wordCount (s : String) : Nat :=
  runCount (fun c => !c.isWhitespace) false s.data

/-- Whether a character list ends with a character satisfying `p`. -/
def endsWith (p : Char → Bool) : List Char → Bool
  | [] => false
  | [c] => p c
  | _ :: c :: cs => endsWith p (c :: cs)

theorem splitWsCore_length : ∀ cs : List Char,
    (∀ acc, (splitWsCore cs (some acc)).length
        = runCount Char.isWhitespace false cs + 1) ∧
      (splitWsCore cs none).length = runCount Char.isWhitespace true cs + 1 := by
  intro cs
  induction cs with
  | nil => simp [splitWsCore, runCount]
  | cons c cs ih =>
    by_cases hw : c.isWhitespace
    · constructor
      · intro acc
        simp [splitWsCore, runCount, hw, ih.2]
      · simp [splitWsCore, runCount, hw, ih.2]
    · constructor
      · intro acc
        simp [splitWsCore, runCount, hw, ih.1]
      · simp [splitWsCore, runCount, hw, ih.1]

theorem runCount_alternation : ∀ cs : List Char,
    ((cs = [] ∨ endsWith (fun c => !c.isWhitespace) cs = true) →
        runCount (fun c => !c.isWhitespace) true cs
          = runCount Char.isWhitespace false cs) ∧
      (endsWith (fun c => !c.isWhitespace) cs = true →
        runCount (fun c => !c.isWhitespace) false cs
          = runCount Char.isWhitespace true cs + 1) := by
  intro cs
  induction cs with
  | nil => simp [runCount, endsWith]
  | cons c cs ih =>
    have hends : cs ≠ [] → endsWith (fun c => !c.isWhitespace) (c :: cs)
        = endsWith (fun c => !c.isWhitespace) cs := by
      intro hne
      cases cs with
      | nil => exact absurd rfl hne
      | cons d ds => rfl
    constructor
    · intro hcase
      have hcc : endsWith (fun c => !c.isWhitespace) (c :: cs) = true := by
        rcases hcase with h | h
        · exact absurd h (by simp)
        · exact h
      by_cases hw : c.isWhitespace
      · have hne : cs ≠ [] := by
          intro h
          subst h
          simp [endsWith, hw] at hcc
        rw [hends hne] at hcc
        simp [runCount, hw, ih.2 hcc]
      · rcases eq_or_ne cs [] with rfl | hne
        · simp [runCount, hw]
        · rw [hends hne] at hcc
          simp [runCount, hw, ih.1 (Or.inr hcc)]
    · intro hcc
      by_cases hw : c.isWhitespace
      · have hne : cs ≠ [] := by
          intro h
          subst h
          simp [endsWith, hw] at hcc
        rw [hends hne] at hcc
        simp [runCount, hw, ih.2 hcc]
      · rcases eq_or_ne cs [] with rfl | hne
        · simp [runCount, hw]
        · rw [hends hne] at hcc
          simp [runCount, hw, ih.1 (Or.inr hcc)]

/-- For a nonempty script with no leading and no trailing whitespace, the
fragment count of `split(/\s+/)` equals the whitespace-delimited word count. -/
theorem jsSplitWs_length_eq_wordCount (s : String)
    (h1 : s.data ≠ [])
    (h2 : ∀ c, s.data.head? = some c → c.isWhitespace = false)
    (h3 : endsWith (fun c => !c.isWhitespace) s.data = true) :
    (jsSplitWs s).length = wordCount s := by
  unfold jsSplitWs wordCount
  cases hd : s.data with
  | nil => exact absurd hd h1
  | cons c cs =>
    have hw : c.isWhitespace = false := h2 c (by rw [hd]; rfl)
    rw [hd] at h3
    rw [(splitWsCore_length (c :: cs)).1 []]
    simp only [runCount, hw, Bool.not_false, if_true, if_false, Bool.false_eq_true]
    rcases eq_or_ne cs [] with rfl | hne
    · simp [runCount]
    · have hcs : endsWith (fun c => !c.isWhitespace) cs = true := by
        cases cs with
        | nil => exact absurd rfl hne
        | cons d ds => exact h3
      rw [(runCount_alternation cs).1 (Or.inr hcs)]

theorem jsSplitWs_length_pos (s : String) : 1 ≤ (jsSplitWs s).length := by
  unfold jsSplitWs
  rw [(splitWsCore_length s.data).1 []]
  omega

/-- A script of exactly 150 words preceded by a single space: `split(/\s+/)`
yields a leading empty fragment, so the source counts 151 "words". -/
def cxScript : String := String.mk (List.flatten (List.replicate 150 [' ', 'a']))

/-- Counterexample for C8: for a 150-word script with leading whitespace the
derived duration is 2, not `ceil(wordCount/150) = 1` — the source counts the
empty fragment produced by `split(/\s+/)` at a leading-whitespace boundary. -/
theorem claim_C8_counterexample :
    wordCount cxScript = 150 ∧
      jsMathCeilDiv (wordCount cxScript) 150 = 1 ∧
      scriptDerivedDuration cxScript = 2 ∧
      (handleScriptUpload {} "script.txt" cxScript).duration = 2 := by
  refine ⟨by decide, by decide, by decide, by decide⟩

/-- C8 (amended): the derived duration is `ceil(fragments/150)` where
`fragments` counts the pieces of `split(/\s+/)` — which exceeds the
whitespace-delimited word count by one empty fragment per leading/trailing
whitespace boundary.  For a nonempty script with no leading and no trailing
whitespace the two agree, so the duration equals `ceil(wordCount/150)`; the
duration is at least 1 for every script; removing the script reverts the
duration to the default of 1. -/
theorem claim_C8_derivedDuration_amended (s : String)
    (h1 : s.data ≠ [])
    (h2 : ∀ c, s.data.head? = some c → c.isWhitespace = false)
    (h3 : endsWith (fun c => !c.isWhitespace) s.data = true) :
    scriptDerivedDuration s = jsMathCeilDiv (wordCount s) 150 ∧
      (∀ t : String, 1 ≤ scriptDerivedDuration t) ∧
      (∀ st : AppState, (handleScriptUpload st "f.txt" s).duration
          = (jsMathCeilDiv (wordCount s) 150 : Int)) ∧
      (∀ st : AppState, (handleRemoveScript st).duration = 1) := by
  have hkey : scriptDerivedDuration s = jsMathCeilDiv (wordCount s) 150 := by
    unfold scriptDerivedDuration
    rw [jsSplitWs_length_eq_wordCount s h1 h2 h3]
  refine ⟨hkey, ?_, ?_, fun st => rfl⟩
  · intro t
    unfold scriptDerivedDuration jsMathCeilDiv
    have := jsSplitWs_length_pos t
    omega
  · intro st
    simp [handleScriptUpload, hkey]

/-- Witness for C8 (amended) at the two-word script "hello world". -/
theorem claim_C8_derivedDuration_amended_witness :
    ("hello world").data ≠ [] ∧
      endsWith (fun c => !c.isWhitespace) ("hello world").data = true ∧
      scriptDerivedDuration "hello world" = jsMathCeilDiv (wordCount "hello world") 150 ∧
      scriptDerivedDuration "hello world" = 1 :=
  ⟨by decide, by decide,
    (claim_C8_derivedDuration_amended "hello world" (by decide)
        (by intro c hc; cases hc; decide) (by decide)).1,
    by decide⟩

/-! ### Image generation (App.tsx lines 568-618)

The image service call `generateImageFromPrompt(prompt.imagePrompt, referenceImages, apiKey, model)`
is an external collaborator; its outcome is a parameter `svc` mapping the
image prompt to `Except String String` (error message or image data-URL).
Every `setPrompts(prev => prev.map(p => p.id === X ? {...p, ...} : p))` call in
the source is a per-id targeted update against the latest list, embedded as
`setRecord`. -/

/-- Outcome of an image-generation call, keyed by the prompt text it was given. -/
def Svc : Type := String → Except String String

/-- Whether an `Except` outcome is a success. -/
def exceptOk {ε α : Type} : Except ε α → Bool
  | Except.ok _ => true
  | Except.error _ => false

/-- A per-id targeted update of the scene list:
`prev.map(p => p.id === i ? f(p) : p)`. -/
def setRecord (i : Nat) (f : ScenePrompt → ScenePrompt) (ps : List ScenePrompt) :
    List ScenePrompt :=
  ps.map (fun p => if p.id = i then f p else p)

/-- The optimistic update applied before a call is issued (App.tsx lines 573
and 598): `{ ...p, isLoading: true, generationFailed: false }`. -/
def startUpdate (p : ScenePrompt) : ScenePrompt :=
  { p with isLoading := true, generationFailed := false }

/-- The success update (App.tsx lines 577 and 600):
`{ ...p, generatedImageUrl: imageUrl, isLoading: false }`. -/
def succeedUpdate (url : String) (p : ScenePrompt) : ScenePrompt :=
  { p with generatedImageUrl := some url, isLoading := false }

/-- The failure update (App.tsx lines 579 and 604):
`{ ...p, isLoading: false, generationFailed: true }`. -/
def failUpdate (p : ScenePrompt) : ScenePrompt :=
  { p with isLoading := false, generationFailed := true }

/-- The per-scene error toast posted by `handleGenerateImage` (App.tsx line
580). -/
def sceneErrorToast (i : Nat) : ToastPayload :=
  { type := ToastType.error, title := "Scene " ++ toString i ++ " Error",
    message := "Failed to generate image." }

/-- `handleGenerateImage` (App.tsx lines 568-582): the single-scene
generate/regenerate action. -/
def handleGenerateImage (svc : Svc) (st : AppState) (i : Nat) :
    AppState × List ToastPayload :=
  match st.prompts.find? (fun p => p.id == i) with
  | none => (st, [])
  | some pr =>
      let ps1 := setRecord i startUpdate st.prompts
      match svc pr.imagePrompt with
      | Except.ok url =>
          ({ st with prompts := setRecord i (succeedUpdate url) ps1 }, [])
      | Except.error _ =>
          ({ st with prompts := setRecord i failUpdate ps1 }, [sceneErrorToast i])

/-- The pending selection of `handleGenerateAllImages` (App.tsx line 590):
`prompts.filter(p => !p.generatedImageUrl)` — scenes without a (truthy)
generated image, regardless of the `generationFailed` flag. -/
def pendingOf (ps : List ScenePrompt) : List ScenePrompt :=
  ps.filter (fun p => !jsTruthy p.generatedImageUrl)

/-- The chunking loop of `handleGenerateAllImages` (App.tsx lines 593-595):
`for (let i = 0; i < pendingPrompts.length; i += 4) pendingPrompts.slice(i, i + 4)`. -/
def chunksOf4 {α : Type} : List α → List (List α)
  | [] => []
  | [a] => [[a]]
  | [a, b] => [[a, b]]
  | [a, b, c] => [[a, b, c]]
  | a :: b :: c :: d :: rest => [a, b, c, d] :: chunksOf4 rest

/-- One member of a chunk (App.tsx lines 596-607): optimistic update, service
call, then the success or failure update; the `catch` absorbs the failure and
bumps the failure count.  State is `(prompts, successCount, failureCount)`. -/
def runMember (svc : Svc) (acc : List ScenePrompt × Nat × Nat) (pr : ScenePrompt) :
    List ScenePrompt × Nat × Nat :=
  let ps1 := setRecord pr.id startUpdate acc.1
  match svc pr.imagePrompt with
  | Except.ok url => (setRecord pr.id (succeedUpdate url) ps1, acc.2.1 + 1, acc.2.2)
  | Except.error _ => (setRecord pr.id failUpdate ps1, acc.2.1, acc.2.2 + 1)

/-- One chunk: all members settle (the `await Promise.all`); the per-id state
updates of concurrently settling members commute, so the joint outcome is the
left fold over the chunk. -/
def runChunk (svc : Svc) (acc : List ScenePrompt × Nat × Nat) (chunk : List ScenePrompt) :
    List ScenePrompt × Nat × Nat :=
  chunk.foldl (runMember svc) acc

/-- The whole batch loop of `handleGenerateAllImages` over the chunks of the
pending selection. -/
def runBatch (svc : Svc) (ps : List ScenePrompt) : List ScenePrompt × Nat × Nat :=
  (chunksOf4 (pendingOf ps)).foldl (runChunk svc) (ps, 0, 0)

/-- The aggregate completion toast (App.tsx lines 612-617): warning severity
when anything failed, success otherwise, counts embedded in the message, and
`persistent: true`. -/
def aggToastOf (s f : Nat) : ToastPayload :=
  { type := if 0 < f then ToastType.warning else ToastType.success
    title := "Batch Generation Complete"
    message := "Successfully generated: " ++ toString s ++ " images.\nFailed: "
      ++ toString f ++ " images."
    persistent := true }

/-- `handleGenerateAllImages` (App.tsx lines 584-618): final state and the
toasts it posts.  The early return fires when `prompts.length === 0`; there is
no check of `isBatchGenerating` inside the handler. -/
def handleGenerateAllImages (svc : Svc) (st : AppState) : AppState × List ToastPayload :=
  if st.prompts.isEmpty then (st, [])
  else
    let r := runBatch svc st.prompts
    ({ st with prompts := r.1, isBatchGenerating := false },
     [aggToastOf r.2.1 r.2.2])

/-- Observable events of one run of `handleGenerateAllImages`, in program
order: flag writes (`setIsBatchGenerating`), call launches, call settlements,
and toast posts. -/
inductive AppEvent
  | setBatchFlag (b : Bool)
  | launch (i : Nat)
  | settle (i : Nat) (ok : Bool)
  | post (t : ToastPayload)
deriving DecidableEq, Repr

/-- Events of one chunk: `Promise.all` launches every member before the
barrier, and the barrier is passed only once every member has settled, so each
chunk contributes all its launches followed by all its settlements. -/
def chunkEvents (svc : Svc) (c : List ScenePrompt) : List AppEvent :=
  c.map (fun p => AppEvent.launch p.id)
    ++ c.map (fun p => AppEvent.settle p.id (exceptOk (svc p.imagePrompt)))

/-- The event trace of one `handleGenerateAllImages` run (App.tsx lines
584-618): flag set to true (line 586), the chunks strictly in order (lines
594-608, the `await` is a hard barrier between chunks), flag cleared (line
610), and only then the aggregate toast (line 612). -/
def handleGenerateAllImagesTrace (svc : Svc) (st : AppState) : List AppEvent :=
  if st.prompts.isEmpty then []
  else
    AppEvent.setBatchFlag true ::
      ((chunksOf4 (pendingOf st.prompts)).map (chunkEvents svc)).flatten
      ++ [AppEvent.setBatchFlag false,
          AppEvent.post (aggToastOf (runBatch svc st.prompts).2.1
            (runBatch svc st.prompts).2.2)]

/-- Net number of outstanding image-generation calls contributed by one event. -/
def netE : AppEvent → Int
  | AppEvent.launch _ => 1
  | AppEvent.settle _ _ => -1
  | _ => 0

/-- Net number of outstanding image-generation calls after a trace segment. -/
def netSum (l : List AppEvent) : Int := (l.map netE).sum

/-- The `disabled` attribute of the "Generate All Images" button (App.tsx line
693) and of the per-card generate/regenerate buttons (lines 380, 401): the
triggering UI actions are disabled exactly while `isBatchGenerating` is set. -/
def generateAllButtonDisabled (st : AppState) : Bool := st.isBatchGenerating

/-! ### Chunking lemmas -/

theorem chunksOf4_flatten {α : Type} : ∀ l : List α, (chunksOf4 l).flatten = l
  | [] => rfl
  | [_] => rfl
  | [_, _] => rfl
  | [_, _, _] => rfl
  | a :: b :: c :: d :: rest => by
      simp [chunksOf4, chunksOf4_flatten rest]

theorem chunksOf4_mem_length {α : Type} :
    ∀ (l : List α) (g : List α), g ∈ chunksOf4 l → 1 ≤ g.length ∧ g.length ≤ 4
  | [], g => by simp [chunksOf4]
  | [a], g => by intro hg; simp [chunksOf4] at hg; subst hg; simp
  | [a, b], g => by intro hg; simp [chunksOf4] at hg; subst hg; simp
  | [a, b, c], g => by intro hg; simp [chunksOf4] at hg; subst hg; simp
  | a :: b :: c :: d :: rest, g => by
      intro hg
      rcases List.mem_cons.mp hg with rfl | h
      · simp
      · exact chunksOf4_mem_length rest g h

/-- The sizes of the chunks of a list of a given length. -/
def lenChunks : Nat → List Nat
  | 0 => []
  | 1 => [1]
  | 2 => [2]
  | 3 => [3]
  | n + 4 => 4 :: lenChunks n

theorem chunksOf4_map_length {α : Type} :
    ∀ l : List α, (chunksOf4 l).map List.length = lenChunks l.length
  | [] => rfl
  | [_] => rfl
  | [_, _] => rfl
  | [_, _, _] => rfl
  | a :: b :: c :: d :: rest => by
      have hlen : (a :: b :: c :: d :: rest).length = rest.length + 4 := by
        simp
      rw [hlen]
      simp [chunksOf4, lenChunks, chunksOf4_map_length rest]

theorem lenChunks_length : ∀ n : Nat, (lenChunks n).length = (n + 3) / 4
  | 0 => rfl
  | 1 => rfl
  | 2 => rfl
  | 3 => rfl
  | n + 4 => by
      have h : (n + 4 + 3) = (n + 3) + 4 := by omega
      rw [lenChunks, List.length_cons, lenChunks_length n, h,
        Nat.add_div_right _ (by norm_num)]

theorem chunksOf4_length {α : Type} (l : List α) :
    (chunksOf4 l).length = (l.length + 3) / 4 := by
  have h := congrArg List.length (chunksOf4_map_length l)
  simpa [lenChunks_length] using h

/-! ### Trace lemmas: the outstanding-call bound -/

theorem netSum_append (l1 l2 : List AppEvent) :
    netSum (l1 ++ l2) = netSum l1 + netSum l2 := by
  simp [netSum]

theorem netSum_all_ones (l : List AppEvent) (h : ∀ e ∈ l, netE e = 1) :
    netSum l = l.length := by
  induction l with
  | nil => rfl
  | cons e l ih =>
    have he : netE e = 1 := h e (by simp)
    have hl := ih (fun x hx => h x (by simp [hx]))
    simp [netSum, List.map_cons, List.sum_cons] at hl ⊢
    omega

theorem netSum_all_negOnes (l : List AppEvent) (h : ∀ e ∈ l, netE e = -1) :
    netSum l = -(l.length : Int) := by
  induction l with
  | nil => rfl
  | cons e l ih =>
    have he : netE e = -1 := h e (by simp)
    have hl := ih (fun x hx => h x (by simp [hx]))
    simp [netSum, List.map_cons, List.sum_cons] at hl ⊢
    omega

theorem netSum_all_zero (l : List AppEvent) (h : ∀ e ∈ l, netE e = 0) :
    netSum l = 0 := by
  induction l with
  | nil => rfl
  | cons e l ih =>
    have he : netE e = 0 := h e (by simp)
    have hl := ih (fun x hx => h x (by simp [hx]))
    simp [netSum, List.map_cons, List.sum_cons] at hl ⊢
    omega

theorem netSum_chunkEvents (svc : Svc) (c : List ScenePrompt) :
    netSum (chunkEvents svc c) = 0 := by
  rw [chunkEvents, netSum_append,
    netSum_all_ones _ (by intro e he; rcases List.mem_map.mp he with ⟨p, _, rfl⟩; rfl),
    netSum_all_negOnes _ (by intro e he; rcases List.mem_map.mp he with ⟨p, _, rfl⟩; rfl)]
  simp

theorem chunkEvents_net_bound (svc : Svc) (c : List ScenePrompt)
    (hc : c.length ≤ 4) (pre suf : List AppEvent)
    (h : chunkEvents svc c = pre ++ suf) :
    0 ≤ netSum pre ∧ netSum pre ≤ 4 := by
  rw [chunkEvents] at h
  rcases List.append_eq_append_iff.mp h.symm with ⟨a, ha1, _⟩ | ⟨a, ha1, ha2⟩
  · -- pre lies within the launch part
    have hmem : ∀ e ∈ pre, netE e = 1 := by
      intro e he
      have : e ∈ c.map (fun p => AppEvent.launch p.id) := by
        rw [ha1]; exact List.mem_append_left _ he
      rcases List.mem_map.mp this with ⟨p, _, rfl⟩; rfl
    have hlen : pre.length ≤ c.length := by
      have := congrArg List.length ha1
      simp at this
      omega
    rw [netSum_all_ones pre hmem]
    constructor <;> omega
  · -- pre covers all launches plus part of the settle part
    subst ha1
    have hmem : ∀ e ∈ a, netE e = -1 := by
      intro e he
      have : e ∈ c.map (fun p => AppEvent.settle p.id (exceptOk (svc p.imagePrompt))) := by
        rw [ha2]; exact List.mem_append_left _ he
      rcases List.mem_map.mp this with ⟨p, _, rfl⟩; rfl
    have hlen : a.length ≤ c.length := by
      have := congrArg List.length ha2
      simp at this
      omega
    rw [netSum_append,
      netSum_all_ones _ (by intro e he; rcases List.mem_map.mp he with ⟨p, _, rfl⟩; rfl),
      netSum_all_negOnes a hmem]
    simp only [List.length_map]
    omega

theorem netSum_flatten_chunkEvents (svc : Svc) (gs : List (List ScenePrompt)) :
    netSum ((gs.map (chunkEvents svc)).flatten) = 0 := by
  induction gs with
  | nil => rfl
  | cons c gs ih =>
    simp only [List.map_cons, List.flatten_cons]
    rw [netSum_append, netSum_chunkEvents, ih]
    simp

theorem chunksFlatten_net_bound (svc : Svc) :
    ∀ (gs : List (List ScenePrompt)), (∀ g ∈ gs, g.length ≤ 4) →
      ∀ pre suf : List AppEvent,
        (gs.map (chunkEvents svc)).flatten = pre ++ suf →
        0 ≤ netSum pre ∧ netSum pre ≤ 4 := by
  intro gs
  induction gs with
  | nil =>
    intro _ pre suf h
    have : pre = [] := by
      have := congrArg List.length h
      simp at this
      exact List.eq_nil_of_length_eq_zero (by omega)
    subst this
    simp [netSum]
  | cons c gs ih =>
    intro hlen pre suf h
    simp only [List.map_cons, List.flatten_cons] at h
    rcases List.append_eq_append_iff.mp h.symm with ⟨a, ha1, _⟩ | ⟨a, ha1, ha2⟩
    · exact chunkEvents_net_bound svc c (hlen c (by simp)) pre a ha1
    · subst ha1
      have hres := ih (fun g hg => hlen g (by simp [hg])) a suf ha2
      rw [netSum_append, netSum_chunkEvents]
      simpa using hres

theorem trace_net_bound (svc : Svc) (st : AppState) (pre suf : List AppEvent)
    (h : handleGenerateAllImagesTrace svc st = pre ++ suf) :
    0 ≤ netSum pre ∧ netSum pre ≤ 4 := by
  by_cases hemp : st.prompts.isEmpty
  · rw [handleGenerateAllImagesTrace, if_pos hemp] at h
    have : pre = [] := by
      have := congrArg List.length h
      simp at this
      exact List.eq_nil_of_length_eq_zero (by omega)
    subst this
    simp [netSum]
  · rw [handleGenerateAllImagesTrace, if_neg hemp] at h
    cases pre with
    | nil => simp [netSum]
    | cons e pre =>
      rw [List.cons_append] at h
      injection h with he h
      subst he
      have hbound : ∀ g ∈ chunksOf4 (pendingOf st.prompts), g.length ≤ 4 :=
        fun g hg => (chunksOf4_mem_length _ g hg).2
      have hnet : netSum (AppEvent.setBatchFlag true :: pre) = netSum pre := by
        simp [netSum, netE]
      rw [hnet]
      rcases List.append_eq_append_iff.mp h.symm with ⟨a, ha1, _⟩ | ⟨a, ha1, ha2⟩
      · exact chunksFlatten_net_bound svc _ hbound pre a ha1
      · subst ha1
        have hzero : netSum a = 0 := by
          apply netSum_all_zero
          intro e he
          have hmem : e ∈ a ++ suf := List.mem_append_left _ he
          rw [← ha2] at hmem
          have : e = AppEvent.setBatchFlag false ∨
              e = AppEvent.post (aggToastOf (runBatch svc st.prompts).2.1
                (runBatch svc st.prompts).2.2) := by
            simpa using hmem
          rcases this with rfl | rfl <;> rfl
        rw [netSum_append, hzero, netSum_flatten_chunkEvents]
        simp

/-! ### Trace lemmas: group-barrier ordering -/

theorem exists_decomp_two {α : Type} (l : List α) (i j : Nat) (hij : i < j)
    (hj : j < l.length) :
    ∃ u1 u2 u3, l = u1 ++ l.get ⟨i, Nat.lt_trans hij hj⟩ :: u2 ++ l.get ⟨j, hj⟩ :: u3 := by
  have hi : i < l.length := Nat.lt_trans hij hj
  have htake : (l.take j)[i]? = some l[i] := by
    rw [List.getElem?_take_of_lt hij, List.getElem?_eq_getElem hi]
  have hmem : l[i] ∈ l.take j := List.getElem?_mem htake
  obtain ⟨u1, u2, hu⟩ := List.append_of_mem hmem
  refine ⟨u1, u2, l.drop (j + 1), ?_⟩
  have hdrop : l.drop j = l[j] :: l.drop (j + 1) := List.drop_eq_getElem_cons hj
  calc l = l.take j ++ l.drop j := (List.take_append_drop j l).symm
    _ = (u1 ++ l[i] :: u2) ++ l[j] :: l.drop (j + 1) := by rw [← hu, ← hdrop]
    _ = u1 ++ l.get ⟨i, hi⟩ :: u2 ++ l.get ⟨j, hj⟩ :: l.drop (j + 1) := by
        simp [List.append_assoc]

theorem mem_mem_ordered {x y : AppEvent} (A B pre0 mid0 suf0 t : List AppEvent)
    (hx : x ∈ A) (hy : y ∈ B) (ht : t = pre0 ++ A ++ mid0 ++ B ++ suf0) :
    ∃ t1 t2 t3, t = t1 ++ x :: t2 ++ y :: t3 := by
  obtain ⟨a1, a2, ha⟩ := List.append_of_mem hx
  obtain ⟨b1, b2, hb⟩ := List.append_of_mem hy
  refine ⟨pre0 ++ a1, a2 ++ mid0 ++ b1, b2 ++ suf0, ?_⟩
  rw [ht, ha, hb]
  simp [List.append_assoc]

/-- Every settlement of a member of group `i` appears in the trace strictly
before every launch of a member of a later group `j`. -/
theorem trace_group_barrier (svc : Svc) (st : AppState) (hne : ¬ st.prompts.isEmpty)
    (i j : Nat) (hij : i < j) (hj : j < (chunksOf4 (pendingOf st.prompts)).length)
    (p q : ScenePrompt)
    (hp : p ∈ (chunksOf4 (pendingOf st.prompts)).get ⟨i, Nat.lt_trans hij hj⟩)
    (hq : q ∈ (chunksOf4 (pendingOf st.prompts)).get ⟨j, hj⟩) :
    ∃ t1 t2 t3, handleGenerateAllImagesTrace svc st =
      t1 ++ AppEvent.settle p.id (exceptOk (svc p.imagePrompt)) :: t2
        ++ AppEvent.launch q.id :: t3 := by
  set gs := chunksOf4 (pendingOf st.prompts) with hgs
  obtain ⟨u1, u2, u3, hdecomp⟩ := exists_decomp_two gs i j hij hj
  set gi := gs.get ⟨i, Nat.lt_trans hij hj⟩ with hgi
  set gj := gs.get ⟨j, hj⟩ with hgj
  have hx : AppEvent.settle p.id (exceptOk (svc p.imagePrompt))
      ∈ gi.map (fun p => AppEvent.settle p.id (exceptOk (svc p.imagePrompt))) :=
    List.mem_map_of_mem _ hp
  have hy : AppEvent.launch q.id ∈ gj.map (fun p => AppEvent.launch p.id) :=
    List.mem_map_of_mem _ hq
  apply mem_mem_ordered
      (gi.map (fun p => AppEvent.settle p.id (exceptOk (svc p.imagePrompt))))
      (gj.map (fun p => AppEvent.launch p.id))
      (AppEvent.setBatchFlag true :: (u1.map (chunkEvents svc)).flatten
        ++ gi.map (fun p => AppEvent.launch p.id))
      ((u2.map (chunkEvents svc)).flatten)
      ((gj.map (fun p => AppEvent.settle p.id (exceptOk (svc p.imagePrompt))))
        ++ (u3.map (chunkEvents svc)).flatten
        ++ [AppEvent.setBatchFlag false,
            AppEvent.post (aggToastOf (runBatch svc st.prompts).2.1
              (runBatch svc st.prompts).2.2)])
      _ hx hy
  rw [handleGenerateAllImagesTrace, if_neg hne, ← hgs, hdecomp]
  simp only [List.map_append, List.map_cons, List.flatten_append, List.flatten_cons,
    chunkEvents, List.append_assoc, List.cons_append]

/-! ### C1: the batch grouping and concurrency bound -/

/-- C1: each `generateAllPending` run selects the scenes without a generated
image (regardless of the failed flag), partitions them into `ceil(n/4)`
consecutive nonempty groups of at most 4 preserving scene order, dispatches
the groups strictly sequentially (every settlement of group `i` precedes every
launch of any later group `j` in the event trace of the run), keeps the number of
outstanding calls within 0..4 at every trace point, and for 10 pending scenes
produces exactly the group sizes 4, 4, 2. -/
theorem claim_C1_batchGrouping (svc : Svc) (st : AppState) (h : st.prompts ≠ []) :
    (chunksOf4 (pendingOf st.prompts)).flatten = pendingOf st.prompts ∧
    (∀ g ∈ chunksOf4 (pendingOf st.prompts),
      1 ≤ g.length ∧ g.length ≤ MAX_CONCURRENT_GENERATIONS) ∧
    (chunksOf4 (pendingOf st.prompts)).length = ((pendingOf st.prompts).length + 3) / 4 ∧
    ((pendingOf st.prompts).length = 10 →
      (chunksOf4 (pendingOf st.prompts)).map List.length = [4, 4, 2]) ∧
    (∀ pre suf : List AppEvent, handleGenerateAllImagesTrace svc st = pre ++ suf →
      0 ≤ netSum pre ∧ netSum pre ≤ 4) ∧
    (∀ (i j : Nat) (hij : i < j) (hj : j < (chunksOf4 (pendingOf st.prompts)).length)
        (p q : ScenePrompt),
      p ∈ (chunksOf4 (pendingOf st.prompts)).get ⟨i, Nat.lt_trans hij hj⟩ →
      q ∈ (chunksOf4 (pendingOf st.prompts)).get ⟨j, hj⟩ →
      ∃ t1 t2 t3, handleGenerateAllImagesTrace svc st =
        t1 ++ AppEvent.settle p.id (exceptOk (svc p.imagePrompt)) :: t2
          ++ AppEvent.launch q.id :: t3) := by
  have hne : ¬ st.prompts.isEmpty := by simpa [List.isEmpty_iff] using h
  refine ⟨chunksOf4_flatten _, fun g hg => ?_, chunksOf4_length _, ?_, ?_, ?_⟩
  · have := chunksOf4_mem_length (pendingOf st.prompts) g hg
    simpa [MAX_CONCURRENT_GENERATIONS] using this
  · intro h10
    rw [chunksOf4_map_length, h10]
    rfl
  · exact fun pre suf hsplit => trace_net_bound svc st pre suf hsplit
  · exact fun i j hij hj p q hp hq => trace_group_barrier svc st hne i j hij hj p q hp hq

/-- A throwaway pending scene used by closed witnesses for the batch claims. -/
def pendScene (n : Nat) : ScenePrompt :=
  { id := n, phase := "Quest", imagePrompt := "prompt " ++ toString n,
    videoPrompt := "video " ++ toString n }

/-- A ten-scene state, all pending, used by closed witnesses. -/
def st10 : AppState :=
  { prompts := [pendScene 1, pendScene 2, pendScene 3, pendScene 4, pendScene 5,
                pendScene 6, pendScene 7, pendScene 8, pendScene 9, pendScene 10] }

/-- An image service that always succeeds, for closed witnesses. -/
def svcAllOk : Svc := fun _ => Except.ok "data-url"

/-- Witness for C1: with 10 pending scenes the run dispatches groups of sizes
4, 4, 2, and a concrete trace segment covering the whole first group keeps the
outstanding-call count within the ceiling. -/
theorem claim_C1_batchGrouping_witness :
    ((pendingOf st10.prompts).length = 10 ∧
      (chunksOf4 (pendingOf st10.prompts)).map List.length = [4, 4, 2]) ∧
    (handleGenerateAllImagesTrace svcAllOk st10 =
        [AppEvent.setBatchFlag true, AppEvent.launch 1, AppEvent.launch 2,
         AppEvent.launch 3, AppEvent.launch 4] ++
          (handleGenerateAllImagesTrace svcAllOk st10).drop 5 ∧
      0 ≤ netSum [AppEvent.setBatchFlag true, AppEvent.launch 1, AppEvent.launch 2,
          AppEvent.launch 3, AppEvent.launch 4] ∧
        netSum [AppEvent.setBatchFlag true, AppEvent.launch 1, AppEvent.launch 2,
          AppEvent.launch 3, AppEvent.launch 4] ≤ 4) := by
  have h := claim_C1_batchGrouping svcAllOk st10 (by decide)
  constructor
  · exact ⟨by decide, h.2.2.2.1 (by decide)⟩
  · have hsplit : handleGenerateAllImagesTrace svcAllOk st10 =
        [AppEvent.setBatchFlag true, AppEvent.launch 1, AppEvent.launch 2,
         AppEvent.launch 3, AppEvent.launch 4] ++
          (handleGenerateAllImagesTrace svcAllOk st10).drop 5 := by decide
    exact ⟨hsplit, h.2.2.2.2.1 _ _ hsplit⟩

/-! ### Batch counters and per-record outcomes -/

/-- Whether the service call for the image prompt of a scene succeeds. -/
def memberOk (svc : Svc) (p : ScenePrompt) : Bool := exceptOk (svc p.imagePrompt)

/-- The terminal record of one processed member: optimistic update composed
with the success or failure update. -/
def settled (svc : Svc) (r : ScenePrompt) : ScenePrompt :=
  match svc r.imagePrompt with
  | Except.ok url =>
      { r with generatedImageUrl := some url, isLoading := false, generationFailed := false }
  | Except.error _ => { r with isLoading := false, generationFailed := true }

theorem countP_add_countP_not (p : α → Bool) (l : List α) :
    l.countP p + l.countP (fun a => !p a) = l.length := by
  induction l with
  | nil => rfl
  | cons a l ih =>
    by_cases h : p a <;> simp [List.countP_cons, h] <;> omega

theorem foldl_runMember_counts (svc : Svc) :
    ∀ (ms : List ScenePrompt) (acc : List ScenePrompt × Nat × Nat),
      (ms.foldl (runMember svc) acc).2.1 = acc.2.1 + ms.countP (memberOk svc) ∧
      (ms.foldl (runMember svc) acc).2.2 = acc.2.2 + ms.countP (fun p => !memberOk svc p) := by
  intro ms
  induction ms with
  | nil => intro acc; simp
  | cons m rest ih =>
    intro acc
    have hstep := ih (runMember svc acc m)
    cases hm : svc m.imagePrompt with
    | ok url =>
      have hok : memberOk svc m = true := by simp [memberOk, exceptOk, hm]
      simp only [List.foldl_cons] at *
      rw [hstep.1, hstep.2]
      simp [runMember, hm, List.countP_cons, hok]
      omega
    | error e =>
      have hok : memberOk svc m = false := by simp [memberOk, exceptOk, hm]
      simp only [List.foldl_cons] at *
      rw [hstep.1, hstep.2]
      simp [runMember, hm, List.countP_cons, hok]
      omega

/-- The chunked fold equals the flat fold over the pending selection. -/
theorem runBatch_eq_flat (svc : Svc) (ps : List ScenePrompt) :
    runBatch svc ps = (pendingOf ps).foldl (runMember svc) (ps, 0, 0) := by
  rw [runBatch]
  conv_rhs => rw [← chunksOf4_flatten (pendingOf ps), List.foldl_flatten]
  rfl

theorem runBatch_counts (svc : Svc) (ps : List ScenePrompt) :
    (runBatch svc ps).2.1 = (pendingOf ps).countP (memberOk svc) ∧
      (runBatch svc ps).2.2 = (pendingOf ps).countP (fun p => !memberOk svc p) := by
  rw [runBatch_eq_flat]
  have h := foldl_runMember_counts svc (pendingOf ps) (ps, 0, 0)
  simpa using h

/-! ### Per-id lookup lemmas -/

/-- Lookup of a scene record by id. -/
def lookupId (i : Nat) (ps : List ScenePrompt) : Option ScenePrompt :=
  ps.find? (fun p => p.id == i)

theorem lookupId_setRecord_same (i : Nat) (f : ScenePrompt → ScenePrompt)
    (hf : ∀ p, (f p).id = p.id) (ps : List ScenePrompt) :
    lookupId i (setRecord i f ps) = (lookupId i ps).map f := by
  induction ps with
  | nil => rfl
  | cons p ps ih =>
    by_cases h : p.id = i
    · have h1 : ((f p).id == i) = true := by simp [hf p, h]
      have h2 : (p.id == i) = true := by simp [h]
      simp only [lookupId, setRecord, List.map_cons, if_pos h, List.find?_cons, h1, h2]
      rfl
    · have h1 : (p.id == i) = false := by simp [h]
      simp only [lookupId, setRecord, List.map_cons, if_neg h, List.find?_cons, h1]
      exact ih

theorem lookupId_setRecord_other (i j : Nat) (hij : j ≠ i)
    (f : ScenePrompt → ScenePrompt) (hf : ∀ p, (f p).id = p.id)
    (ps : List ScenePrompt) :
    lookupId j (setRecord i f ps) = lookupId j ps := by
  induction ps with
  | nil => rfl
  | cons p ps ih =>
    by_cases h : p.id = i
    · have hpj : ¬ p.id = j := by rw [h]; exact fun he => hij he.symm
      have h1 : ((f p).id == j) = false := by
        simp [hf p, h]
        exact fun he => hij he.symm
      have h2 : (p.id == j) = false := by simp [hpj]
      simp only [lookupId, setRecord, List.map_cons, if_pos h, List.find?_cons, h1, h2]
      exact ih
    · by_cases hpj : p.id = j
      · have h1 : (p.id == j) = true := by simp [hpj]
        simp only [lookupId, setRecord, List.map_cons, if_neg h, List.find?_cons, h1]
      · have h1 : (p.id == j) = false := by simp [hpj]
        simp only [lookupId, setRecord, List.map_cons, if_neg h, List.find?_cons, h1]
        exact ih

theorem lookupId_eq_some_of_nodup (ps : List ScenePrompt)
    (hnd : (ps.map ScenePrompt.id).Nodup) (q : ScenePrompt) (hq : q ∈ ps) :
    lookupId q.id ps = some q := by
  induction ps with
  | nil => cases hq
  | cons p ps ih =>
    rcases List.mem_cons.mp hq with rfl | hq'
    · rw [lookupId, List.find?_cons_of_pos _ (by simp)]
    · have hnd' : (ps.map ScenePrompt.id).Nodup := (List.nodup_cons.mp hnd).2
      have hne : ¬ (p.id = q.id) := by
        intro he
        have : q.id ∈ ps.map ScenePrompt.id := List.mem_map_of_mem _ hq'
        exact (List.nodup_cons.mp hnd).1 (he ▸ this)
      rw [lookupId, List.find?_cons_of_neg _ (by simp [hne])]
      exact ih hnd' hq'

theorem setRecord_map_id (i : Nat) (f : ScenePrompt → ScenePrompt)
    (hf : ∀ p, (f p).id = p.id) (ps : List ScenePrompt) :
    (setRecord i f ps).map ScenePrompt.id = ps.map ScenePrompt.id := by
  rw [setRecord, List.map_map]
  apply List.map_congr_left
  intro p _
  by_cases h : p.id = i <;> simp [h, hf p]

theorem startUpdate_id (p : ScenePrompt) : (startUpdate p).id = p.id := rfl

theorem succeedUpdate_id (url : String) (p : ScenePrompt) :
    (succeedUpdate url p).id = p.id := rfl

theorem failUpdate_id (p : ScenePrompt) : (failUpdate p).id = p.id := rfl

theorem foldl_runMember_lookup (svc : Svc) :
    ∀ (ms ps : List ScenePrompt) (s f : Nat),
      (ps.map ScenePrompt.id).Nodup →
      (ms.map ScenePrompt.id).Nodup →
      (∀ m ∈ ms, lookupId m.id ps = some m) →
      (∀ m ∈ ms, lookupId m.id ((ms.foldl (runMember svc) (ps, s, f)).1)
          = some (settled svc m)) ∧
        (∀ j, j ∉ ms.map ScenePrompt.id →
          lookupId j ((ms.foldl (runMember svc) (ps, s, f)).1) = lookupId j ps) := by
  intro ms
  induction ms with
  | nil => intro ps s f _ _ _; exact ⟨fun m hm => absurd hm (by simp), fun j _ => rfl⟩
  | cons m rest ih =>
    intro ps s f hndps hndms hms
    have hmid : m.id ∉ rest.map ScenePrompt.id := (List.nodup_cons.mp hndms).1
    have hndrest : (rest.map ScenePrompt.id).Nodup := (List.nodup_cons.mp hndms).2
    -- the state after processing `m`
    have hm0 : lookupId m.id ps = some m := hms m (by simp)
    cases hm : svc m.imagePrompt with
    | ok url =>
      have hfold : (m :: rest).foldl (runMember svc) (ps, s, f)
          = rest.foldl (runMember svc)
              (setRecord m.id (succeedUpdate url) (setRecord m.id startUpdate ps),
                s + 1, f) := by
        simp [List.foldl_cons, runMember, hm]
      set ps' := setRecord m.id (succeedUpdate url) (setRecord m.id startUpdate ps)
        with hps'
      have hlookm : lookupId m.id ps' = some (settled svc m) := by
        rw [hps', lookupId_setRecord_same _ _ (succeedUpdate_id url),
          lookupId_setRecord_same _ _ startUpdate_id, hm0]
        simp [settled, hm, startUpdate, succeedUpdate]
      have hlookother : ∀ j, j ≠ m.id → lookupId j ps' = lookupId j ps := by
        intro j hj
        rw [hps', lookupId_setRecord_other _ _ hj _ (succeedUpdate_id url),
          lookupId_setRecord_other _ _ hj _ startUpdate_id]
      have hndps' : (ps'.map ScenePrompt.id).Nodup := by
        rw [hps', setRecord_map_id _ _ (succeedUpdate_id url),
          setRecord_map_id _ _ startUpdate_id]
        exact hndps
      have hmsrest : ∀ m' ∈ rest, lookupId m'.id ps' = some m' := by
        intro m' hm'
        have hne : m'.id ≠ m.id := by
          intro he
          exact hmid (he ▸ List.mem_map_of_mem _ hm')
        rw [hlookother m'.id hne]
        exact hms m' (by simp [hm'])
      obtain ⟨ih1, ih2⟩ := ih ps' (s + 1) f hndps' hndrest hmsrest
      rw [hfold]
      constructor
      · intro m' hm'
        rcases List.mem_cons.mp hm' with rfl | hm''
        · rw [ih2 m'.id hmid, hlookm]
        · exact ih1 m' hm''
      · intro j hj
        rw [List.map_cons] at hj
        have hj1 : j ≠ m.id := fun he => hj (by simp [he])
        have hj2 : j ∉ rest.map ScenePrompt.id := fun hmem => hj (by simp [hmem])
        rw [ih2 j hj2, hlookother j hj1]
    | error e =>
      have hfold : (m :: rest).foldl (runMember svc) (ps, s, f)
          = rest.foldl (runMember svc)
              (setRecord m.id failUpdate (setRecord m.id startUpdate ps), s, f + 1) := by
        simp [List.foldl_cons, runMember, hm]
      set ps' := setRecord m.id failUpdate (setRecord m.id startUpdate ps) with hps'
      have hlookm : lookupId m.id ps' = some (settled svc m) := by
        rw [hps', lookupId_setRecord_same _ _ failUpdate_id,
          lookupId_setRecord_same _ _ startUpdate_id, hm0]
        simp [settled, hm, startUpdate, failUpdate]
      have hlookother : ∀ j, j ≠ m.id → lookupId j ps' = lookupId j ps := by
        intro j hj
        rw [hps', lookupId_setRecord_other _ _ hj _ failUpdate_id,
          lookupId_setRecord_other _ _ hj _ startUpdate_id]
      have hndps' : (ps'.map ScenePrompt.id).Nodup := by
        rw [hps', setRecord_map_id _ _ failUpdate_id,
          setRecord_map_id _ _ startUpdate_id]
        exact hndps
      have hmsrest : ∀ m' ∈ rest, lookupId m'.id ps' = some m' := by
        intro m' hm'
        have hne : m'.id ≠ m.id := by
          intro he
          exact hmid (he ▸ List.mem_map_of_mem _ hm')
        rw [hlookother m'.id hne]
        exact hms m' (by simp [hm'])
      obtain ⟨ih1, ih2⟩ := ih ps' s (f + 1) hndps' hndrest hmsrest
      rw [hfold]
      constructor
      · intro m' hm'
        rcases List.mem_cons.mp hm' with rfl | hm''
        · rw [ih2 m'.id hmid, hlookm]
        · exact ih1 m' hm''
      · intro j hj
        rw [List.map_cons] at hj
        have hj1 : j ≠ m.id := fun he => hj (by simp [he])
        have hj2 : j ∉ rest.map ScenePrompt.id := fun hmem => hj (by simp [hmem])
        rw [ih2 j hj2, hlookother j hj1]

theorem runBatch_lookup (svc : Svc) (ps : List ScenePrompt)
    (hnd : (ps.map ScenePrompt.id).Nodup) :
    (∀ m ∈ pendingOf ps, lookupId m.id (runBatch svc ps).1 = some (settled svc m)) ∧
      (∀ j, j ∉ (pendingOf ps).map ScenePrompt.id →
        lookupId j (runBatch svc ps).1 = lookupId j ps) := by
  rw [runBatch_eq_flat]
  have hsub : List.Sublist (pendingOf ps) ps := List.filter_sublist ps
  have hndp : ((pendingOf ps).map ScenePrompt.id).Nodup :=
    (hsub.map ScenePrompt.id).nodup hnd
  have hlk : ∀ m ∈ pendingOf ps, lookupId m.id ps = some m := fun m hm =>
    lookupId_eq_some_of_nodup ps hnd m (hsub.subset hm)
  exact foldl_runMember_lookup svc (pendingOf ps) ps 0 0 hnd hndp hlk

/-! ### C2: the aggregate completion notification -/

/-- C2: every completed batch run posts exactly one aggregate toast, after all
groups have settled; its success and failure counts sum to the number of
scenes pending at batch start; it embeds both counts in its message, is
persistent, and schedules no auto-removal; and if 3 of 10 pending calls fail
the counts are 7 and 3. -/
theorem claim_C2_aggregateNotification (svc : Svc) (st : AppState)
    (h : st.prompts ≠ []) :
    (handleGenerateAllImages svc st).2
        = [aggToastOf (runBatch svc st.prompts).2.1 (runBatch svc st.prompts).2.2] ∧
    (runBatch svc st.prompts).2.1 + (runBatch svc st.prompts).2.2
        = (pendingOf st.prompts).length ∧
    (aggToastOf (runBatch svc st.prompts).2.1 (runBatch svc st.prompts).2.2).persistent
        = true ∧
    addToastSchedulesRemoval
        (aggToastOf (runBatch svc st.prompts).2.1 (runBatch svc st.prompts).2.2)
        = false ∧
    (aggToastOf (runBatch svc st.prompts).2.1 (runBatch svc st.prompts).2.2).message
        = "Successfully generated: " ++ toString (runBatch svc st.prompts).2.1
          ++ " images.\nFailed: " ++ toString (runBatch svc st.prompts).2.2
          ++ " images." ∧
    (∃ body, handleGenerateAllImagesTrace svc st
        = AppEvent.setBatchFlag true :: body
          ++ [AppEvent.setBatchFlag false,
              AppEvent.post (aggToastOf (runBatch svc st.prompts).2.1
                (runBatch svc st.prompts).2.2)] ∧
      ∀ q ∈ pendingOf st.prompts,
        AppEvent.settle q.id (exceptOk (svc q.imagePrompt)) ∈ body) ∧
    ((pendingOf st.prompts).length = 10 →
      (pendingOf st.prompts).countP (fun p => !memberOk svc p) = 3 →
      (runBatch svc st.prompts).2.1 = 7 ∧ (runBatch svc st.prompts).2.2 = 3) := by
  have hne : ¬ st.prompts.isEmpty := by simpa [List.isEmpty_iff] using h
  have hcounts := runBatch_counts svc st.prompts
  have hsum : (runBatch svc st.prompts).2.1 + (runBatch svc st.prompts).2.2
      = (pendingOf st.prompts).length := by
    rw [hcounts.1, hcounts.2]
    exact countP_add_countP_not _ _
  refine ⟨?_, hsum, rfl, rfl, rfl, ?_, ?_⟩
  · rw [handleGenerateAllImages, if_neg hne]
  · refine ⟨((chunksOf4 (pendingOf st.prompts)).map (chunkEvents svc)).flatten, ?_, ?_⟩
    · rw [handleGenerateAllImagesTrace, if_neg hne]
    · intro q hq
      have hq' : q ∈ (chunksOf4 (pendingOf st.prompts)).flatten := by
        rw [chunksOf4_flatten]; exact hq
      rcases List.mem_flatten.mp hq' with ⟨c, hc, hqc⟩
      apply List.mem_flatten_of_mem (List.mem_map_of_mem (chunkEvents svc) hc)
      rw [chunkEvents]
      exact List.mem_append_right _ (List.mem_map_of_mem _ hqc)
  · intro h10 h3
    have h1 : (runBatch svc st.prompts).2.2 = 3 := by rw [hcounts.2, h3]
    have h2 : (runBatch svc st.prompts).2.1 = 7 := by omega
    exact ⟨h2, h1⟩

/-- An image service failing exactly on the prompts of scenes 1, 2 and 3, for
closed witnesses. -/
def svc3Fail : Svc := fun s =>
  if s == "prompt 1" || s == "prompt 2" || s == "prompt 3" then Except.error "down"
  else Except.ok "data-url"

/-- Witness for C2: 3 failures among 10 pending scenes yield the persistent
aggregate toast reporting 7 successes and 3 failures. -/
theorem claim_C2_aggregateNotification_witness :
    (runBatch svc3Fail st10.prompts).2.1 = 7 ∧
      (runBatch svc3Fail st10.prompts).2.2 = 3 ∧
      (handleGenerateAllImages svc3Fail st10).2
        = [aggToastOf (runBatch svc3Fail st10.prompts).2.1
            (runBatch svc3Fail st10.prompts).2.2] ∧
      addToastSchedulesRemoval
          (aggToastOf (runBatch svc3Fail st10.prompts).2.1
            (runBatch svc3Fail st10.prompts).2.2) = false := by
  have h := claim_C2_aggregateNotification svc3Fail st10 (by decide)
  have h73 := h.2.2.2.2.2.2 (by decide) (by decide)
  exact ⟨h73.1, h73.2, h.1, h.2.2.2.1⟩

/-! ### C3: per-member failure isolation -/

/-- C3: a failing member of a batch run is absorbed at that member: its record
ends `Failed` (with `isLoading` cleared), the failure is counted, every
sibling pending scene still reaches its own outcome determined solely by its
own call, every pending scene of every group is still launched and settled in
the trace, and the batch still completes normally with its single aggregate
toast — the failure is never re-thrown past the batch operation. -/
theorem claim_C3_failureIsolation (svc : Svc) (st : AppState) (p : ScenePrompt)
    (hnd : (st.prompts.map ScenePrompt.id).Nodup)
    (hp : p ∈ pendingOf st.prompts)
    (e : String) (hf : svc p.imagePrompt = Except.error e) :
    lookupId p.id (handleGenerateAllImages svc st).1.prompts
        = some { p with isLoading := false, generationFailed := true } ∧
    1 ≤ (runBatch svc st.prompts).2.2 ∧
    (∀ q ∈ pendingOf st.prompts, q.id ≠ p.id →
      lookupId q.id (handleGenerateAllImages svc st).1.prompts
        = some (settled svc q)) ∧
    (∀ q ∈ pendingOf st.prompts,
      AppEvent.launch q.id ∈ handleGenerateAllImagesTrace svc st ∧
        AppEvent.settle q.id (exceptOk (svc q.imagePrompt))
          ∈ handleGenerateAllImagesTrace svc st) ∧
    (handleGenerateAllImages svc st).2
        = [aggToastOf (runBatch svc st.prompts).2.1 (runBatch svc st.prompts).2.2] := by
  have hmem : p ∈ st.prompts := (List.filter_sublist st.prompts).subset hp
  have hne' : st.prompts ≠ [] := List.ne_nil_of_mem hmem
  have hne : ¬ st.prompts.isEmpty := by simpa [List.isEmpty_iff] using hne'
  have hstate : (handleGenerateAllImages svc st).1.prompts = (runBatch svc st.prompts).1 := by
    rw [handleGenerateAllImages, if_neg hne]
  have hlk := runBatch_lookup svc st.prompts hnd
  refine ⟨?_, ?_, ?_, ?_, ?_⟩
  · rw [hstate, hlk.1 p hp]
    simp [settled, hf]
  · have hcounts := runBatch_counts svc st.prompts
    rw [hcounts.2]
    exact List.countP_pos_iff.mpr ⟨p, hp, by simp [memberOk, exceptOk, hf]⟩
  · intro q hq _
    rw [hstate]
    exact hlk.1 q hq
  · intro q hq
    have hq' : q ∈ (chunksOf4 (pendingOf st.prompts)).flatten := by
      rw [chunksOf4_flatten]; exact hq
    rcases List.mem_flatten.mp hq' with ⟨c, hc, hqc⟩
    have hlaunch : AppEvent.launch q.id ∈ chunkEvents svc c := by
      rw [chunkEvents]
      exact List.mem_append_left _ (List.mem_map_of_mem _ hqc)
    have hsettle : AppEvent.settle q.id (exceptOk (svc q.imagePrompt))
        ∈ chunkEvents svc c := by
      rw [chunkEvents]
      exact List.mem_append_right _ (List.mem_map_of_mem _ hqc)
    have hchunkmem : chunkEvents svc c
        ∈ (chunksOf4 (pendingOf st.prompts)).map (chunkEvents svc) :=
      List.mem_map_of_mem _ hc
    constructor <;>
    · rw [handleGenerateAllImagesTrace, if_neg hne]
      refine List.mem_cons_of_mem _ (List.mem_append_left _ ?_)
      first
        | exact List.mem_flatten_of_mem hchunkmem hlaunch
        | exact List.mem_flatten_of_mem hchunkmem hsettle
  · rw [handleGenerateAllImages, if_neg hne]

/-- Witness for C3: with scenes 1 and 2 pending and the service failing on
scene 1's prompt, scene 1 ends `Failed` while the failure is counted. -/
theorem claim_C3_failureIsolation_witness :
    lookupId 1 (handleGenerateAllImages svc3Fail st10).1.prompts
        = some { pendScene 1 with isLoading := false, generationFailed := true } ∧
      1 ≤ (runBatch svc3Fail st10.prompts).2.2 := by
  have h := claim_C3_failureIsolation svc3Fail st10 (pendScene 1) (by decide)
    (by decide) "down" (by rfl)
  exact ⟨h.1, h.2.1⟩

/-! ### C4: the single-flight guard -/

/-- A one-pending-scene state whose batch flag is already set, as if a batch
run were active. -/
def stActive : AppState := { prompts := [pendScene 1], isBatchGenerating := true }

/-- Counterexample for C4: with `isBatchGenerating` already true, calling
`handleGenerateAllImages` is neither rejected nor a no-op — it runs the whole
batch and posts the aggregate toast (the only gate is the disabled UI button);
and the flag is cleared (`setIsBatchGenerating(false)`, line 610) strictly
before the aggregate notification is posted (line 612), not after it. -/
theorem claim_C4_counterexample :
    stActive.isBatchGenerating = true ∧
      (handleGenerateAllImages svcAllOk stActive).1 ≠ stActive ∧
      (handleGenerateAllImages svcAllOk stActive).2 ≠ [] ∧
      handleGenerateAllImagesTrace svcAllOk stActive
        = [AppEvent.setBatchFlag true, AppEvent.launch 1, AppEvent.settle 1 true,
           AppEvent.setBatchFlag false, AppEvent.post (aggToastOf 1 0)] := by
  refine ⟨rfl, by decide, by decide, by decide⟩

/-- C4 (amended): re-invocation is prevented only at the UI layer — the
triggering buttons are disabled exactly while `isBatchGenerating` is set; the
handler itself performs no `isRunning` check.  The flag is set before the
first group dispatches and cleared after the last group settles, but before
(not after) the aggregate notification is posted: the trace is the flag-set
event, then only launch/settle events, then the flag-clear event, then the
toast post. -/
theorem claim_C4_singleFlight_amended (svc : Svc) (st : AppState)
    (h : st.prompts ≠ []) :
    (∀ st' : AppState, st'.isBatchGenerating = true →
      generateAllButtonDisabled st' = true) ∧
    (∃ body, handleGenerateAllImagesTrace svc st
        = AppEvent.setBatchFlag true :: body
          ++ [AppEvent.setBatchFlag false,
              AppEvent.post (aggToastOf (runBatch svc st.prompts).2.1
                (runBatch svc st.prompts).2.2)] ∧
      ∀ e ∈ body, (∃ i, e = AppEvent.launch i) ∨ ∃ i b, e = AppEvent.settle i b) ∧
    (handleGenerateAllImages svc st).1.isBatchGenerating = false := by
  have hne : ¬ st.prompts.isEmpty := by simpa [List.isEmpty_iff] using h
  refine ⟨fun st' hst' => hst', ?_, ?_⟩
  · refine ⟨((chunksOf4 (pendingOf st.prompts)).map (chunkEvents svc)).flatten, ?_, ?_⟩
    · rw [handleGenerateAllImagesTrace, if_neg hne]
    · intro e he
      rcases List.mem_flatten.mp he with ⟨l, hl, hel⟩
      rcases List.mem_map.mp hl with ⟨c, _, rfl⟩
      rw [chunkEvents] at hel
      rcases List.mem_append.mp hel with h1 | h1
      · rcases List.mem_map.mp h1 with ⟨q, _, rfl⟩
        exact Or.inl ⟨q.id, rfl⟩
      · rcases List.mem_map.mp h1 with ⟨q, _, rfl⟩
        exact Or.inr ⟨q.id, exceptOk (svc q.imagePrompt), rfl⟩
  · rw [handleGenerateAllImages, if_neg hne]

/-- Witness for C4 (amended) on the ten-scene state. -/
theorem claim_C4_singleFlight_amended_witness :
    generateAllButtonDisabled { st10 with isBatchGenerating := true } = true ∧
      (handleGenerateAllImages svcAllOk st10).1.isBatchGenerating = false :=
  ⟨(claim_C4_singleFlight_amended svcAllOk st10 (by decide)).1
      { st10 with isBatchGenerating := true } rfl,
    (claim_C4_singleFlight_amended svcAllOk st10 (by decide)).2.2⟩

/-! ### C5: the image-presence / generation-state invariant -/

/-- The per-record generation state of the spec (§3, `SceneRecord.generationState`).
Modelled from the spec: the source keeps three flags instead of one enum, and
the transitions in the spec fix the mapping — the optimistic update puts a record
in `Pending` (`isLoading`), a failed call puts it in `Failed`
(`generationFailed`), a record holding a generated image without either flag
is `Succeeded`, and otherwise it is `Idle`. -/
inductive GenState
  | Idle
  | Pending
  | Succeeded
  | Failed
deriving DecidableEq, Repr

/-- The flag-to-enum mapping described above. -/
def generationState (p : ScenePrompt) : GenState :=
  if p.isLoading then GenState.Pending
  else if p.generationFailed then GenState.Failed
  else if p.generatedImageUrl.isSome then GenState.Succeeded
  else GenState.Idle

/-- An image service that fails unconditionally, for closed counterexamples. -/
def svcAllFail : Svc := fun _ => Except.error "boom"

/-- A fresh one-scene plan for the C5 counterexample. -/
def stOneScene : AppState :=
  { prompts := [{ id := 1, phase := "Hook", imagePrompt := "ip", videoPrompt := "vp" }] }

/-- Counterexample for C5: generate scene 1 successfully, then regenerate it
and let the call fail — a sequence of two `generateOne` calls.  The failure
update (`{ ...p, isLoading: false, generationFailed: true }`) preserves the
previously generated image, so the record ends with `generatedImage` present
while its generation state is `Failed`, falsifying the claimed equivalence. -/
theorem claim_C5_counterexample :
    (handleGenerateImage svcAllFail
          (handleGenerateImage svcAllOk stOneScene 1).1 1).1.prompts
      = [{ id := 1, phase := "Hook", imagePrompt := "ip", videoPrompt := "vp",
           generatedImageUrl := some "data-url", isLoading := false,
           generationFailed := true }] ∧
    generationState
        { id := 1, phase := "Hook", imagePrompt := "ip", videoPrompt := "vp",
          generatedImageUrl := some "data-url", isLoading := false,
          generationFailed := true }
      = GenState.Failed ∧
    ({ id := 1, phase := "Hook", imagePrompt := "ip", videoPrompt := "vp",
       generatedImageUrl := some "data-url", isLoading := false,
       generationFailed := true } : ScenePrompt).generatedImageUrl.isSome = true := by
  refine ⟨by decide, rfl, rfl⟩

/-- The scene states reachable when no generation call ever targets a scene
that already holds a generated image (no regeneration), built from the
primitive `setPrompts` updates of the source: plan replacement (lines 506 and
556), the optimistic update (lines 573/598), the success update (lines
577/600) and the failure update (lines 579/604).  The side conditions record
what holds at each step in such runs: a call starts only on an image-free
record, and a record being settled is still in the state its start left it in
(per the at-most-one-outstanding-request-per-id invariant of the spec). -/
inductive NoRegenReach : List ScenePrompt → Prop
  | empty : NoRegenReach []
  | plan (data : List (Nat × String × String × String)) (prev : List ScenePrompt) :
      NoRegenReach prev →
      NoRegenReach (data.map (fun d =>
        { id := d.1, phase := d.2.1, imagePrompt := d.2.2.1, videoPrompt := d.2.2.2 }))
  | start (s : List ScenePrompt) (i : Nat) :
      NoRegenReach s →
      (∀ p ∈ s, p.id = i → p.generatedImageUrl = none) →
      NoRegenReach (setRecord i startUpdate s)
  | settleOk (s : List ScenePrompt) (i : Nat) (url : String) :
      NoRegenReach s →
      (∀ p ∈ s, p.id = i →
        p.isLoading = true ∧ p.generationFailed = false ∧ p.generatedImageUrl = none) →
      NoRegenReach (setRecord i (succeedUpdate url) s)
  | settleFail (s : List ScenePrompt) (i : Nat) :
      NoRegenReach s →
      (∀ p ∈ s, p.id = i →
        p.isLoading = true ∧ p.generationFailed = false ∧ p.generatedImageUrl = none) →
      NoRegenReach (setRecord i failUpdate s)

/-- C5 (amended): `generatedImage` is present iff `generationState = Succeeded`
holds in every state reachable without regeneration — i.e. when every
generation call targets only scenes with no generated image.  (A failed or
in-flight regeneration of a scene that already holds an image breaks the
equivalence, since the prior image is preserved: see the counterexample.) -/
theorem claim_C5_invariant_amended (s : List ScenePrompt) (hs : NoRegenReach s) :
    ∀ p ∈ s, (p.generatedImageUrl.isSome = true ↔ generationState p = GenState.Succeeded) := by
  induction hs with
  | empty => intro p hp; cases hp
  | plan data prev _ _ =>
    intro p hp
    rcases List.mem_map.mp hp with ⟨d, _, rfl⟩
    simp [generationState]
  | start s i _ hpre ih =>
    intro p hp
    rcases List.mem_map.mp hp with ⟨r, hr, rfl⟩
    by_cases h : r.id = i
    · have hurl := hpre r hr h
      simp [h, startUpdate, generationState, hurl]
    · have := ih r hr
      simpa [h] using this
  | settleOk s i url _ hpre ih =>
    intro p hp
    rcases List.mem_map.mp hp with ⟨r, hr, rfl⟩
    by_cases h : r.id = i
    · have hflags := hpre r hr h
      simp [h, succeedUpdate, generationState, hflags.2.1]
    · have := ih r hr
      simpa [h] using this
  | settleFail s i _ hpre ih =>
    intro p hp
    rcases List.mem_map.mp hp with ⟨r, hr, rfl⟩
    by_cases h : r.id = i
    · have hflags := hpre r hr h
      simp [h, failUpdate, generationState, hflags.2.2]
    · have := ih r hr
      simpa [h] using this

/-- Witness for C5 (amended): load a one-scene plan, start its generation, and
let it succeed — the resulting record satisfies the equivalence. -/
theorem claim_C5_invariant_amended_witness :
    ((succeedUpdate "data-url" (startUpdate
          { id := 1, phase := "Hook", imagePrompt := "ip",
            videoPrompt := "vp" })).generatedImageUrl.isSome = true ↔
      generationState (succeedUpdate "data-url" (startUpdate
          { id := 1, phase := "Hook", imagePrompt := "ip", videoPrompt := "vp" }))
        = GenState.Succeeded) := by
  have hreach : NoRegenReach (setRecord 1 (succeedUpdate "data-url")
      (setRecord 1 startUpdate
        ([(1, "Hook", "ip", "vp")].map (fun d =>
          ({ id := d.1, phase := d.2.1, imagePrompt := d.2.2.1,
             videoPrompt := d.2.2.2 } : ScenePrompt))))) := by
    apply NoRegenReach.settleOk
    · apply NoRegenReach.start
      · exact NoRegenReach.plan [(1, "Hook", "ip", "vp")] [] NoRegenReach.empty
      · intro p hp hid
        rcases List.mem_map.mp hp with ⟨d, hd, rfl⟩
        simp at hd
        subst hd
        rfl
    · intro p hp hid
      simp [setRecord, startUpdate] at hp
      rcases hp with ⟨q, hq, rfl | rfl⟩
      all_goals simp_all [startUpdate]
  have h := claim_C5_invariant_amended _ hreach
  apply h
  decide

end Nts
